import Mathlib

set_option maxRecDepth 10000

/- Verification development for plugins/anno-vep.c: a bcftools plugin that
   appends a looked-up tag value to every transcript of the CSQ INFO field
   of a VEP-annotated VCF.  C strings are modelled as lists of characters
   (the text before the terminating NUL); the mapping file as an optional
   list of lines (none models fopen failure). -/

/-- One mapping-file row, the struct item of anno-vep.c (lines 31 to 34):
a key and the value to append on a match. -/
structure item where
  key : List Char
  value : List Char
deriving DecidableEq, Repr

/-- The C library strcmp on the byte strings the plugin handles: negative,
zero or positive as the first string orders below, equal to or above the
second under byte-wise lexicographic comparison. -/
def strcmp : List Char → List Char → Int
  | [], [] => 0
  | [], _ :: _ => -1
  | _ :: _, [] => 1
  | a :: as, b :: bs =>
    if a.toNat < b.toNat then -1
    else if b.toNat < a.toNat then 1
    else strcmp as bs

/-- cmp of anno-vep.c (lines 36 to 40): orders two items by strcmp on
their keys; used as the comparator of the bsearch call in process. -/
def cmp_item (a b : item) : Int := strcmp a.key b.key

/-- Modelled from the spec: cols_split of cols.h, the Delimited-Field
Splitter, whose source is not under src/.  Per the spec it records one
span per delimiter-separated token, keeps empty tokens (two adjacent
delimiters give an empty span), returns delimiter-count plus one spans,
and an empty buffer yields a single empty span. -/
def cols_split (d : Char) : List Char → List (List Char)
  | [] => [[]]
  | c :: cs =>
    if c = d then [] :: cols_split d cs
    else
      match cols_split d cs with
      | [] => [[c]]
      | t :: ts => (c :: t) :: ts

/-- The newline strip of parse_file (line 59): if the last character of
the line is a newline it is overwritten with NUL, shortening the string
by one. -/
def chomp (l : List Char) : List Char :=
  if l.getLast? = some '\n' then l.dropLast else l

/-- One strtok step with a single delimiter character: leading delimiters
are skipped; if nothing is left there is no token, otherwise the token is
the maximal run of non-delimiter characters and the rest of the buffer is
returned for the next call.  strtok never returns an empty token. -/
def strtok_first (d : Char) (s : List Char) : Option (List Char × List Char) :=
  match s.dropWhile (fun c => c == d) with
  | [] => none
  | c :: cs =>
    some ((c :: cs).takeWhile (fun c => !(c == d)),
          (c :: cs).dropWhile (fun c => !(c == d)))

/-- The body of the getline loop of parse_file (lines 57 to 71): the
trailing newline is stripped, key = strtok(line, tab) and
value = strtok(NULL, tab) are taken, and the line contributes one item
exactly when both tokens exist. -/
def parse_line (line : List Char) : Option item :=
  match strtok_first '\t' (chomp line) with
  | none => none
  | some (k, rest) =>
    match strtok_first '\t' rest with
    | none => none
    | some (v, _) => some ⟨k, v⟩

/-- parse_file of anno-vep.c (lines 42 to 76): none models a source that
cannot be opened (fopen returns NULL, zero records); otherwise every line
is fed through the strtok tokenizer and the usable rows are accumulated
in file order.  Note the C function returns the array as built: no sort
is ever applied to it. -/
def parse_file (file : Option (List (List Char))) : List item :=
  match file with
  | none => []
  | some lines => lines.filterMap parse_line

/-- The table-load gate of init (lines 109 to 113): nitems is the record
count returned by parse_file, and init fails (returns -1, modelled none)
exactly when nitems < 1. -/
def init_table (file : Option (List (List Char))) : Option (List item) :=
  if (parse_file file).length < 1 then none else some (parse_file file)

/-- Whether a table is sorted by key: every adjacent pair of entries is
ordered by the cmp comparator. -/
def table_sorted : List item → Bool
  | [] => true
  | [_] => true
  | a :: b :: t => decide (cmp_item a b ≤ 0) && table_sorted (b :: t)

/-- The C library bsearch (glibc: half-open interval, midpoint
(lo + hi) / 2) specialised to item arrays with the cmp comparator, with
an explicit fuel argument consumed once per iteration; bsearch below
passes the array length as fuel, which suffices because the interval
width strictly decreases on every iteration from that same length. -/
def bsearch_go (key : item) (arr : List item) : Nat → Nat → Nat → Option item
  | _, _, 0 => none
  | lo, hi, fuel + 1 =>
    if lo < hi then
      match arr.get? ((lo + hi) / 2) with
      | none => none
      | some it =>
        if cmp_item key it < 0 then bsearch_go key arr lo ((lo + hi) / 2) fuel
        else if 0 < cmp_item key it then bsearch_go key arr ((lo + hi) / 2 + 1) hi fuel
        else some it
    else none

/-- The bsearch call of process (line 166): searches the whole items
array. -/
def bsearch (key : item) (arr : List item) : Option item :=
  bsearch_go key arr 0 arr.length arr.length

/-- One iteration of the transcript loop of process (lines 158 to 173):
the transcript text and one reserved pipe slot are always appended; then
gene_id = cols_csq->off[4] is read.  A transcript whose pipe split has
fewer than five sub-fields makes that read go past the spans the split
produced (an out-of-bounds access in the C), modelled as failure (none).
With a non-empty key the table is searched and a found value is appended
into the reserved slot; otherwise the slot stays empty. -/
def annot_transcript (items : List item) (tr : List Char) : Option (List Char) :=
  match (cols_split '|' tr).get? 4 with
  | none => none
  | some gene_id =>
    if 0 < gene_id.length then
      match bsearch ⟨gene_id, []⟩ items with
      | some found => some (tr ++ '|' :: found.value)
      | none => some (tr ++ ['|'])
    else some (tr ++ ['|'])

/-- The transcript loop of process run over all transcripts, failing as a
whole if any single iteration fails. -/
def annot_all (items : List item) : List (List Char) → Option (List (List Char))
  | [] => some []
  | tr :: trs =>
    match annot_transcript items tr, annot_all items trs with
    | some o, some os => some (o :: os)
    | _, _ => none

/-- The comma placement of process (lines 171 to 172): a comma is
appended after every transcript except the last. -/
def join_comma : List (List Char) → List Char
  | [] => []
  | [t] => t
  | t :: t2 :: ts => t ++ ',' :: join_comma (t2 :: ts)

/-- The rewrite performed by process on a present CSQ string (lines 154
to 174): split on comma into transcripts, annotate each, reassemble with
commas.  none models the out-of-bounds sub-field read on a malformed
transcript. -/
def process (items : List item) (csq : List Char) : Option (List Char) :=
  match annot_all items (cols_split ',' csq) with
  | none => none
  | some parts => some (join_comma parts)

/-- A VCF record as process sees it: the CSQ INFO field (none when
bcf_get_info_string reports the field absent, lcsq_str <= 0) and the
rest of the record's stored fields, which process never touches. -/
structure bcf1 where
  csq : Option (List Char)
  other_fields : List (List Char)
deriving DecidableEq, Repr

/-- process of anno-vep.c (lines 145 to 179) at the record level: with
the CSQ field absent the record is returned as is (the rewrite block is
skipped entirely); with it present the rewritten string is written back
into the record. -/
def process_record (items : List item) (rec : bcf1) : Option bcf1 :=
  match rec.csq with
  | none => some rec
  | some s =>
    match process items s with
    | none => none
    | some out => some { rec with csq := some out }

/-- Whether pat occurs at the very start of s; helper for the strstr
model. -/
def starts_with : List Char → List Char → Bool
  | _, [] => true
  | [], _ :: _ => false
  | a :: as, b :: bs => a == b && starts_with as bs

/-- Whether pat occurs anywhere inside hay, the condition strstr tests in
init (line 120). -/
def contains_sub : List Char → List Char → Bool
  | [], pat => pat.isEmpty
  | c :: t, pat => starts_with (c :: t) pat || contains_sub t pat

/-- The marker the header patch of init looks for inside the CSQ
Description value. -/
def format_marker : List Char := "Format: ".toList

/-- The header-patching step of init (lines 116 to 136) on the CSQ
Description value: when the marker is found, the write
format[strlen(format) - 1] = 0 lands on the last character of the whole
value (format points into its tail), truncating it by one; then a pipe,
the new tag and a closing double quote are appended whether or not the
marker was found. -/
def annotate (desc tag : List Char) : List Char :=
  (if contains_sub desc format_marker then desc.dropLast else desc)
    ++ '|' :: (tag ++ ['"'])

/-- The splitter never returns an empty list of spans: even an empty
buffer yields one (empty) span. -/
theorem cols_split_ne_nil (d : Char) (s : List Char) : cols_split d s ≠ [] := by
  induction s with
  | nil => simp [cols_split]
  | cons c cs ih =>
    by_cases h : c = d
    · simp [cols_split, h]
    · simp only [cols_split, if_neg h]
      cases hcs : cols_split d cs <;> simp

/-- Characterisation of the splitter: the first span is the longest
delimiter-free run, and the remaining spans are the split of whatever
follows the first delimiter. -/
theorem cols_split_char (d : Char) (s : List Char) :
    cols_split d s = s.takeWhile (fun c => !(c == d)) ::
      (match s.dropWhile (fun c => !(c == d)) with
       | [] => []
       | _ :: r => cols_split d r) := by
  induction s with
  | nil => rfl
  | cons c cs ih =>
    by_cases h : c = d
    · subst h
      simp [cols_split, List.takeWhile_cons, List.dropWhile_cons]
    · rw [List.takeWhile_cons, List.dropWhile_cons]
      have hb : (c == d) = false := by simp [h]
      simp only [hb, Bool.not_false, if_true]
      simp only [cols_split, if_neg h]
      rw [ih]

/-- The head of a non-empty dropWhile result fails the predicate. -/
theorem dropWhile_head_false {α : Type} (p : α → Bool) (l : List α)
    (x : α) (xs : List α) (h : l.dropWhile p = x :: xs) : p x = false := by
  induction l with
  | nil => simp [List.dropWhile] at h
  | cons c cs ih =>
    rw [List.dropWhile_cons] at h
    by_cases hc : p c = true
    · rw [if_pos hc] at h
      exact ih h
    · rw [if_neg hc] at h
      cases h
      simpa using hc

/-- A token produced by the strtok step is never empty. -/
theorem strtok_first_ne_nil (d : Char) (s t r : List Char)
    (h : strtok_first d s = some (t, r)) : t ≠ [] := by
  unfold strtok_first at h
  cases hd : s.dropWhile (fun c => c == d) with
  | nil => rw [hd] at h; cases h
  | cons c cs =>
    rw [hd] at h
    have hc : (c == d) = false := dropWhile_head_false _ s c cs hd
    injection h with h
    have ht : t = (c :: cs).takeWhile (fun c => !(c == d)) := (congrArg Prod.fst h).symm
    rw [List.takeWhile_cons] at ht
    simp only [hc, Bool.not_false, if_true] at ht
    rw [ht]
    simp

/-- A leading delimiter is skipped by strtok. -/
theorem strtok_first_cons_delim (d : Char) (cs : List Char) :
    strtok_first d (d :: cs) = strtok_first d cs := by
  unfold strtok_first
  rw [List.dropWhile_cons]
  simp

/-- Bridge between the splitter view and the strtok view of a line: the
non-empty tokens of the split are exactly the successive strtok tokens. -/
theorem filter_split_strtok (d : Char) (s : List Char) :
    (cols_split d s).filter (fun t => !t.isEmpty) =
      (match strtok_first d s with
       | none => []
       | some (t, r) => t :: (cols_split d r).filter (fun t => !t.isEmpty)) := by
  induction s with
  | nil => rfl
  | cons c cs ih =>
    by_cases h : c = d
    · subst h
      rw [strtok_first_cons_delim]
      have h1 : cols_split c (c :: cs) = [] :: cols_split c cs := by
        simp [cols_split]
      rw [h1]
      rw [List.filter_cons]
      simpa using ih
    · have hb : (c == d) = false := by simp [h]
      have hs : strtok_first d (c :: cs) =
          some (c :: cs.takeWhile (fun x => !(x == d)),
                cs.dropWhile (fun x => !(x == d))) := by
        unfold strtok_first
        simp [List.dropWhile_cons, List.takeWhile_cons, hb]
      rw [hs, cols_split_char d (c :: cs)]
      simp only [List.takeWhile_cons, List.dropWhile_cons, hb, Bool.not_false,
        Bool.false_eq_true, if_true, if_false, List.filter_cons, List.isEmpty_cons]
      cases hdw : cs.dropWhile (fun x => !(x == d)) with
      | nil => simp [cols_split]
      | cons x r =>
        have hx : (!(x == d)) = false := dropWhile_head_false _ cs x r hdw
        have hxd : x = d := by simpa using hx
        subst hxd
        have h2 : cols_split x (x :: r) = [] :: cols_split x r := by
          simp [cols_split]
        rw [h2, List.filter_cons]
        simp

/-- Length accounting of the splitter: the spans hold every character of
the buffer except the delimiters, and there is one more span than
delimiters. -/
theorem split_sum_len (d : Char) (s : List Char) :
    ((cols_split d s).map List.length).sum + (cols_split d s).length = s.length + 1 := by
  induction s with
  | nil => simp [cols_split]
  | cons c cs ih =>
    by_cases h : c = d
    · simp only [cols_split, if_pos h, List.map_cons, List.sum_cons, List.length_cons]
      simp only [List.length_nil]
      omega
    · cases hcs : cols_split d cs with
      | nil => exact absurd hcs (cols_split_ne_nil d cs)
      | cons t ts =>
        rw [hcs] at ih
        simp only [cols_split, if_neg h, hcs]
        simp only [List.map_cons, List.sum_cons, List.length_cons] at ih ⊢
        omega

/-- Length accounting of the reassembly: the output holds every span plus
one comma between each adjacent pair. -/
theorem join_comma_len (ts : List (List Char)) (h : ts ≠ []) :
    (join_comma ts).length + 1 = (ts.map List.length).sum + ts.length := by
  induction ts with
  | nil => exact absurd rfl h
  | cons t ts ih =>
    cases ts with
    | nil => simp [join_comma]
    | cons t2 ts2 =>
      have ih2 := ih (by simp)
      simp only [join_comma, List.map_cons, List.sum_cons, List.length_cons,
        List.length_append] at ih2 ⊢
      omega

/-- Whatever the binary search returns is an entry of the array it
searched. -/
theorem bsearch_go_mem (key : item) (arr : List item) (fuel : Nat) :
    ∀ lo hi it, bsearch_go key arr lo hi fuel = some it → it ∈ arr := by
  induction fuel with
  | zero => intro lo hi it h; simp [bsearch_go] at h
  | succ n ih =>
    intro lo hi it h
    rw [bsearch_go] at h
    split at h
    · split at h
      · cases h
      · rename_i found hg
        split at h
        · exact ih _ _ _ h
        · split at h
          · exact ih _ _ _ h
          · injection h with h
            subst h
            exact List.get?_mem hg
    · cases h

/-- Whatever bsearch returns is an entry of the searched array. -/
theorem bsearch_mem (key : item) (arr : List item) (it : item)
    (h : bsearch key arr = some it) : it ∈ arr :=
  bsearch_go_mem key arr arr.length 0 arr.length it h

/-- One annotated transcript is at most 1023 characters longer than the
original transcript when every table value fits in 1022 characters: the

reserved pipe costs one character and the appended value at most 1022. -/
theorem annot_transcript_len (items : List item) (tr o : List Char)
    (hb : ∀ it ∈ items, it.value.length ≤ 1022)
    (h : annot_transcript items tr = some o) : o.length ≤ tr.length + 1023 := by
  unfold annot_transcript at h
  split at h
  · cases h
  · split at h
    · split at h
      · rename_i found hbs
        injection h with h
        subst h
        have hf : found ∈ items := bsearch_mem _ _ _ hbs
        have hv := hb found hf
        simp only [List.length_append, List.length_cons]
        omega
      · injection h with h
        subst h
        simp [List.length_append]
    · injection h with h
      subst h
      simp [List.length_append]

/-- The annotated transcripts are in bijection with the originals and
their total length grows by at most 1023 characters each. -/
theorem annot_all_len (items : List item)
    (hb : ∀ it ∈ items, it.value.length ≤ 1022) :
    ∀ trs os, annot_all items trs = some os →
      os.length = trs.length ∧
      (os.map List.length).sum ≤ (trs.map List.length).sum + 1023 * trs.length := by
  intro trs
  induction trs with
  | nil =>
    intro os h
    simp only [annot_all] at h
    injection h with h
    subst h
    simp
  | cons tr trs ih =>
    intro os h
    simp only [annot_all] at h
    cases h1 : annot_transcript items tr with
    | none => rw [h1] at h; cases h
    | some o =>
      rw [h1] at h
      cases h2 : annot_all items trs with
      | none => rw [h2] at h; cases h
      | some os2 =>
        rw [h2] at h
        injection h with h
        subst h
        obtain ⟨hl, hs⟩ := ih os2 h2
        have ho := annot_transcript_len items tr o hb h1
        constructor
        · simp [hl]
        · simp only [List.map_cons, List.sum_cons, List.length_cons]
          have : 1023 * (trs.length + 1) = 1023 * trs.length + 1023 := by ring
          omega

/-- C1: the claim says parse_file returns a table sorted by key; the code
never sorts.  On the three-line file B, GENE, A the table comes back in
file order, is not sorted, and the bsearch that process later runs on it
even misses the entry with key A although it is present. -/
theorem C1_parse_file_unsorted :
    parse_file (some [("B\t1".toList), ("GENE\tV".toList), ("A\t2".toList)]) =
      [⟨("B".toList), ("1".toList)⟩, ⟨("GENE".toList), ("V".toList)⟩,
       ⟨("A".toList), ("2".toList)⟩]
    ∧ table_sorted
        (parse_file (some [("B\t1".toList), ("GENE\tV".toList), ("A\t2".toList)])) = false
    ∧ (⟨("A".toList), ("2".toList)⟩ : item) ∈
        parse_file (some [("B\t1".toList), ("GENE\tV".toList), ("A\t2".toList)])
    ∧ bsearch ⟨("A".toList), []⟩
        (parse_file (some [("B\t1".toList), ("GENE\tV".toList), ("A\t2".toList)])) = none :=
  ⟨by decide, by decide, by decide, by decide⟩

/-- C2 counterexample: with the table mapping GENE1 to ANNOT, the claimed
output for the composite field T1|x|y|GENE1|z,T2|a|b||c is not produced,
because the key sub-field the code reads is the fifth pipe slot (z and c
here), not the fourth (GENE1). -/
theorem C2_key_slot_counterexample :
    process [⟨("GENE1".toList), ("ANNOT".toList)⟩] ("T1|x|y|GENE1|z,T2|a|b||c".toList) =
      some ("T1|x|y|GENE1|z|,T2|a|b||c|".toList)
    ∧ process [⟨("GENE1".toList), ("ANNOT".toList)⟩] ("T1|x|y|GENE1|z,T2|a|b||c".toList) ≠
      some ("T1|x|y|GENE1|z|ANNOT,T2|a|b||c|".toList) :=
  ⟨by decide, by decide⟩

/-- C2 (amended): the key sub-field is the fifth pipe-delimited slot
(0-based index 4).  On the claim's input both keys (z, c) miss the table
and every transcript gains one empty trailing slot; with GENE1 placed in
the fifth slot the matched transcript gains the slot filled with ANNOT. -/
theorem C2_rewrite_arity :
    process [⟨("GENE1".toList), ("ANNOT".toList)⟩] ("T1|x|y|GENE1|z,T2|a|b||c".toList) =
      some ("T1|x|y|GENE1|z|,T2|a|b||c|".toList)
    ∧ process [⟨("GENE1".toList), ("ANNOT".toList)⟩] ("T1|x|y|z|GENE1,T2|a|b||c".toList) =
      some ("T1|x|y|z|GENE1|ANNOT,T2|a|b||c|".toList) :=
  ⟨by decide, by decide⟩

/-- C3 counterexample: a transcript with fewer than five pipe sub-fields
is not treated as a no-match; the read of sub-field index 4 goes out of
bounds (modelled none), instead of the claimed emission with an empty
appended slot. -/
theorem C3_short_transcript_counterexample :
    process [⟨("GENE1".toList), ("ANNOT".toList)⟩] ("a|b".toList) = none
    ∧ process [⟨("GENE1".toList), ("ANNOT".toList)⟩] ("a|b".toList) ≠
      some ("a|b|".toList) :=
  ⟨by decide, by decide⟩

/-- C3 (amended): a transcript whose fifth sub-field exists but is empty
is treated as no-match — emitted with an empty appended slot, no lookup
attempted; a transcript with fewer than five sub-fields instead makes
the rewriter read the sub-field list out of bounds (modelled none). -/
theorem C3_malformed_transcript (items : List item) (tr : List Char) :
    ((cols_split '|' tr).get? 4 = some [] →
      annot_transcript items tr = some (tr ++ ['|']))
    ∧ ((cols_split '|' tr).length < 5 → annot_transcript items tr = none) := by
  constructor
  · intro h
    rw [List.get?_eq_getElem?] at h
    simp [annot_transcript, h]
  · intro h
    have hn : (cols_split '|' tr).get? 4 = none := by
      rw [List.get?_eq_none]
      omega
    rw [List.get?_eq_getElem?] at hn
    simp [annot_transcript, hn]

/-- C3 witness: the amended statement at concrete inputs, an empty fifth
sub-field and a two-sub-field transcript. -/
theorem C3_malformed_witness :
    annot_transcript [] ("a|b|c|d||e".toList) = some (("a|b|c|d||e".toList) ++ ['|'])
    ∧ annot_transcript [] ("a|b".toList) = none :=
  ⟨(C3_malformed_transcript [] ("a|b|c|d||e".toList)).1 (by decide),
   (C3_malformed_transcript [] ("a|b".toList)).2 (by decide)⟩

/-- C4 counterexample: a description without the marker is not left
unchanged; the pipe, tag and closing quote are appended anyway. -/
theorem C4_marker_absent_counterexample :
    contains_sub ("hello".toList) format_marker = false
    ∧ annotate ("hello".toList) ("TAG".toList) ≠ ("hello".toList) :=
  ⟨by decide, by decide⟩

/-- C4 (amended): when the description lacks the marker only the
truncation step is skipped; the appends are unconditional, so the result
is the description followed by a pipe, the tag and a closing quote. -/
theorem C4_append_unconditional (desc tag : List Char)
    (h : contains_sub desc format_marker = false) :
    annotate desc tag = desc ++ '|' :: (tag ++ ['"']) := by
  simp [annotate, h]

/-- C4 witness: the amended statement on a concrete marker-free
description. -/
theorem C4_append_witness :
    annotate ("hello".toList) ("TAG".toList) =
      ("hello".toList) ++ '|' :: (("TAG".toList) ++ ['"']) :=
  C4_append_unconditional ("hello".toList) ("TAG".toList) (by decide)

/-- C5 counterexample: an empty composite field does not yield the
claimed output of a single pipe; the single empty transcript has one
empty sub-field, so the read of sub-field index 4 is out of bounds
(modelled none). -/
theorem C5_empty_field_counterexample :
    process [⟨("GENE1".toList), ("ANNOT".toList)⟩] [] = none
    ∧ process [⟨("GENE1".toList), ("ANNOT".toList)⟩] [] ≠ some ['|'] :=
  ⟨rfl, by decide⟩

/-- C5 (amended): for the empty composite field the rewriter fails for
every table (the out-of-bounds sub-field read), rather than producing
any output at all. -/
theorem C5_empty_field (items : List item) : process items [] = none := rfl

/-- C6: the startup table gate fails exactly when the mapping source
cannot be opened (none) or no line of it yields a usable (key, value)
row; in both cases the record count is below one and init aborts. -/
theorem C6_init_gate (file : Option (List (List Char))) :
    init_table file = none ↔
      (file = none ∨ ∃ ls, file = some ls ∧ ∀ l ∈ ls, parse_line l = none) := by
  cases file with
  | none => simp [init_table, parse_file]
  | some ls =>
    simp only [init_table, parse_file]
    constructor
    · intro h
      by_cases hl : (ls.filterMap parse_line).length < 1
      · right
        refine ⟨ls, rfl, ?_⟩
        apply List.filterMap_eq_nil_iff.mp
        cases hfm : ls.filterMap parse_line with
        | nil => rfl
        | cons a t => rw [hfm] at hl; simp at hl
      · rw [if_neg hl] at h
        cases h
    · intro h
      rcases h with h | ⟨ls2, hls, hall⟩
      · cases h
      · injection hls with hls
        subst hls
        have hnil : ls.filterMap parse_line = [] :=
          List.filterMap_eq_nil_iff.mpr hall
        rw [hnil]
        simp

/-- C6 witness: the gate refuses an unopenable source. -/
theorem C6_init_gate_witness : init_table none = none :=
  (C6_init_gate none).mpr (Or.inl rfl)

/-- C7: a mapping-file line with fewer than two non-empty tab-delimited
tokens is skipped (no entry, no error); a line with at least two yields
exactly one entry made of its first two tokens, further tokens ignored. -/
theorem C7_line_tokens (line : List Char) :
    (((cols_split '\t' (chomp line)).filter (fun t => !t.isEmpty)).length < 2 →
        parse_line line = none)
    ∧ ∀ k v rest,
        (cols_split '\t' (chomp line)).filter (fun t => !t.isEmpty) = k :: v :: rest →
        parse_line line = some ⟨k, v⟩ := by
  have h1 := filter_split_strtok '\t' (chomp line)
  cases hs : strtok_first '\t' (chomp line) with
  | none =>
    simp only [hs] at h1
    refine ⟨fun _ => ?_, fun k v rest hkv => ?_⟩
    · simp [parse_line, hs]
    · rw [h1] at hkv
      cases hkv
  | some p =>
    obtain ⟨k0, r0⟩ := p
    simp only [hs] at h1
    have h2 := filter_split_strtok '\t' r0
    cases hs2 : strtok_first '\t' r0 with
    | none =>
      simp only [hs2] at h2
      rw [h2] at h1
      refine ⟨fun _ => ?_, fun k v rest hkv => ?_⟩
      · simp [parse_line, hs, hs2]
      · rw [h1] at hkv
        simp at hkv
    | some q =>
      obtain ⟨v0, r1⟩ := q
      simp only [hs2] at h2
      rw [h2] at h1
      refine ⟨fun hlen => ?_, fun k v rest hkv => ?_⟩
      · rw [h1] at hlen
        simp only [List.length_cons] at hlen
        omega
      · rw [h1] at hkv
        injection hkv with e1 e2
        injection e2 with e2 e3
        subst e1
        subst e2
        simp [parse_line, hs, hs2]

/-- C7 witness: a three-column line contributes the entry of its first
two columns. -/
theorem C7_line_tokens_witness :
    parse_line ("A\tB\tC".toList) = some ⟨("A".toList), ("B".toList)⟩ :=
  (C7_line_tokens ("A\tB\tC".toList)).2 ("A".toList) ("B".toList) [("C".toList)]
    (by decide)

/-- C8 counterexample: a row whose second column is empty produces no
entry at all (strtok skips empty tokens), and a row with an empty column
between two non-empty ones yields the two non-empty tokens, never an
empty value. -/
theorem C8_empty_value_counterexample :
    parse_file (some [("GENE1\t".toList)]) = []
    ∧ parse_file (some [("GENE1\t\n".toList)]) = []
    ∧ parse_file (some [("A\t\tB".toList)]) = [⟨("A".toList), ("B".toList)⟩] :=
  ⟨by decide, by decide, by decide⟩

/-- C8 (amended): the lookup table never holds an entry with an empty
key or an empty value: every entry's key and value are non-empty strtok
tokens, and rows without two such tokens are discarded. -/
theorem C8_entries_nonempty (file : Option (List (List Char))) (it : item)
    (h : it ∈ parse_file file) : it.key ≠ [] ∧ it.value ≠ [] := by
  cases file with
  | none => simp [parse_file] at h
  | some ls =>
    simp only [parse_file, List.mem_filterMap] at h
    obtain ⟨line, _, hp⟩ := h
    unfold parse_line at hp
    split at hp
    · cases hp
    · rename_i k rest hs
      split at hp
      · cases hp
      · rename_i q v r1 hs2
        injection hp with hp
        subst hp
        exact ⟨strtok_first_ne_nil _ _ _ _ hs, strtok_first_ne_nil _ _ _ _ hs2⟩

/-- C8 witness: the amended statement on the concrete table of one row. -/
theorem C8_entries_nonempty_witness :
    ("A".toList ≠ ([] : List Char)) ∧ ("B".toList ≠ ([] : List Char)) :=
  C8_entries_nonempty (some [("A\tB".toList)]) ⟨("A".toList), ("B".toList)⟩ (by decide)

/-- C9: a record whose CSQ field is absent passes through process
unmodified: the rewrite block is skipped and nothing is written back. -/
theorem C9_absent_field_frame (items : List item) (rec : bcf1)
    (h : rec.csq = none) : process_record items rec = some rec := by
  unfold process_record
  rw [h]

/-- C9 witness: the frame property on a concrete record without CSQ. -/
theorem C9_absent_field_witness :
    process_record [] ⟨none, [("x".toList)]⟩ = some ⟨none, [("x".toList)]⟩ :=
  C9_absent_field_frame [] ⟨none, [("x".toList)]⟩ rfl

/-- C10: the output buffer process allocates for a record,
strlen(csq) + 1024 * (number of transcripts) bytes, is never overrun
(counting the NUL terminator) provided every table value is at most 1022
characters long; and without that bound the writes can exceed the
allocation, as a single-transcript field with a matched 1023-character
value shows. -/
theorem C10_buffer_bound :
    (∀ (items : List item) (csq out : List Char),
        (∀ it ∈ items, it.value.length ≤ 1022) →
        process items csq = some out →
        out.length + 1 ≤ csq.length + 1024 * (cols_split ',' csq).length)
    ∧ ∃ (items : List item) (csq out : List Char),
        process items csq = some out ∧
        csq.length + 1024 * (cols_split ',' csq).length < out.length + 1 := by
  constructor
  · intro items csq out hb hp
    unfold process at hp
    split at hp
    · cases hp
    · rename_i parts ha
      injection hp with hp
      subst hp
      obtain ⟨hlen, hsum⟩ := annot_all_len items hb (cols_split ',' csq) parts ha
      have hne : cols_split ',' csq ≠ [] := cols_split_ne_nil ',' csq
      have hpos : 0 < (cols_split ',' csq).length := List.length_pos.mpr hne
      have hpne : parts ≠ [] := by
        intro h0
        rw [h0] at hlen
        simp only [List.length_nil] at hlen
        omega
      have hj := join_comma_len parts hpne
      have hsp := split_sum_len ',' csq
      omega
  · refine ⟨[⟨("GENE1".toList), List.replicate 1023 'a'⟩], ("a|b|c|d|GENE1".toList),
        ("a|b|c|d|GENE1|".toList) ++ List.replicate 1023 'a', ?_, ?_⟩
    · decide
    · have h1 : ("a|b|c|d|GENE1".toList).length = 13 := by decide
      have h2 : (cols_split ',' ("a|b|c|d|GENE1".toList)).length = 1 := by decide
      have h3 : ("a|b|c|d|GENE1|".toList).length = 14 := by decide
      rw [h1, h2, List.length_append, h3, List.length_replicate]
      norm_num

/-- C10 witness: the bound applied at a concrete matched record. -/
theorem C10_buffer_bound_witness :
    (("a|b|c|d|GENE1|ANNOT".toList) : List Char).length + 1 ≤
      (("a|b|c|d|GENE1".toList) : List Char).length +
        1024 * (cols_split ',' ("a|b|c|d|GENE1".toList)).length :=
  C10_buffer_bound.1 [⟨("GENE1".toList), ("ANNOT".toList)⟩] ("a|b|c|d|GENE1".toList)
    ("a|b|c|d|GENE1|ANNOT".toList) (by decide) (by decide)
